import Mathlib

set_option maxRecDepth 8192

/-
Shallow embedding of src/main.cpp (fc2-backup).

The program walks the sessions directory recursively, filters entries
(blacklist of names "archives" and "fc2t" matched against every segment of
the relative path, walking leaf to root; plus skipping every direct child
of the sessions directory), mirrors the surviving entries into a freshly
truncated hourly zip, and then nests the hourly zip file into a per-day zip
opened in create-without-truncate mode.

Modelling decisions, each tied to a source line:
- a filesystem path is a list of segments (relative to the sessions
  directory, as computed by std::filesystem::relative on line 142);
- the walk of recursive_directory_iterator (line 140) is an arbitrary list
  of (relative path, kind, bytes) triples, each filesystem entry occurring
  once, in unspecified order;
- a zip archive is a list of entries; zip_dir_add and zip_file_add append
  and fail when an entry of the same name already exists (libzip default
  without ZIP_FL_OVERWRITE); directory names carry a trailing slash in
  libzip, so a directory name and a file name never collide, which the
  model renders as a (segments, isDir) key;
- libzip commits changes to disk only on a successful zip_close, and a
  zip_source_file source is read from disk at the time the receiving
  archive is closed; failures of the external calls (session lookup,
  create_directory, zip_open, zip_close) are injected through a Faults
  record, while add failures arise from the model itself (duplicates);
- the return values of zip_close on lines 212 and 235 are not inspected by
  the program, and the model mirrors that: the exit code never depends on
  the two close faults.
-/

inductive EntryKind where
  | dir : EntryKind
  | file : EntryKind
deriving DecidableEq

/-- One filesystem entry yielded by the recursive walk: its path relative
to the sessions directory (line 142), its kind, and its bytes on disk. -/
structure Entry where
  path : List String
  kind : EntryKind
  content : List Nat
deriving DecidableEq

/-- One entry stored in a zip archive: a directory entry added by
zip_dir_add (line 186) or a file entry added by zip_file_add (line 198). -/
inductive ZEntry where
  | dir : List String → ZEntry
  | file : List String → List Nat → ZEntry
deriving DecidableEq

abbrev Zip := List ZEntry

/-- The daily archive: nested entries, each a name (the hour string of
line 225) paired with the bytes of a whole hourly zip file. -/
abbrev Daily := List (String × Zip)

/-- The blacklist array of lines 136-139. -/
def blacklist : List String := ["archives", "fc2t"]

/-- The loop of is_blacklisted (lines 146-157) visits p.filename, then the
filename of each parent in turn, leaf to root; that order is the reverse of
the segment list, so the model recurses over the reversed segments. -/
def segBlacklistedRev : List String → Bool
  | [] => false
  | s :: rest => blacklist.contains s || segBlacklistedRev rest

/-- is_blacklisted of lines 144-158: some segment of the relative path,
scanned from leaf toward root, is a member of the blacklist. -/
def is_blacklisted (p : List String) : Bool :=
  segBlacklistedRev p.reverse

/-- The name under which a zip entry is stored: its path segments plus a
directory marker (libzip stores directory names with a trailing slash). -/
def zipKey : ZEntry → List String × Bool
  | .dir n => (n, true)
  | .file n _ => (n, false)

def zipHasKey (z : Zip) (k : List String × Bool) : Bool :=
  z.any (fun e => decide (zipKey e = k))

/-- zip_dir_add (line 186): appends a directory entry, failing if an entry
of that name exists already (libzip without ZIP_FL_OVERWRITE). -/
def zip_dir_add (z : Zip) (name : List String) : Option Zip :=
  if zipHasKey z (name, true) then none else some (z ++ [ZEntry.dir name])

/-- zip_file_add (line 198): appends a file entry whose content is
streamed from disk, failing if an entry of that name exists already. -/
def zip_file_add (z : Zip) (name : List String) (c : List Nat) : Option Zip :=
  if zipHasKey z (name, false) then none else some (z ++ [ZEntry.file name c])

def toZEntry (e : Entry) : ZEntry :=
  match e.kind with
  | .dir => ZEntry.dir e.path
  | .file => ZEntry.file e.path e.content

def entryKey (e : Entry) : List String × Bool := zipKey (toZEntry e)

/-- An entry survives both filters of the loop body: the blacklist check
of line 163 and the top-level check of line 171.  The top-level check
compares the parent path of the entry with the sessions directory, which
over relative paths means a single-segment path, and it applies to every
direct child regardless of kind. -/
def included (e : Entry) : Bool :=
  !is_blacklisted e.path && !(e.path.length == 1)

/-- The body of the loop of lines 176-204 for one surviving entry: a
directory goes through zip_dir_add (line 186), anything else through
zip_file_add with a source streaming the file from disk (line 198); a
failed add makes the run return 1. -/
def addOne (z : Zip) (e : Entry) : Except String Zip :=
  match e.kind with
  | .dir =>
    match zip_dir_add z e.path with
    | some z2 => .ok z2
    | none => .error "failed to add directory into zip"
  | .file =>
    match zip_file_add z e.path e.content with
    | some z2 => .ok z2
    | none => .error "failed to add file into zip"

/-- The loop of lines 140-205: each walked entry is skipped when
blacklisted (line 163) or a direct child of the sessions directory
(line 171), and otherwise added; a failed add aborts the run. -/
def addEntries : Zip → List Entry → Except String Zip
  | z, [] => .ok z
  | z, e :: rest =>
    if is_blacklisted e.path then addEntries z rest
    else if e.path.length == 1 then addEntries z rest
    else
      match addOne z e with
      | .ok z2 => addEntries z2 rest
      | .error msg => .error msg

/-- The hourly snapshot built by one run: zip_open with
ZIP_CREATE bitor ZIP_TRUNCATE (line 126) starts from an empty archive,
then the walk loop populates it. -/
def buildHourly (tree : List Entry) : Except String Zip :=
  addEntries [] tree

/-- Failure injection for the external calls the program makes; add
failures are not here because in the model they arise from duplicates. -/
structure Faults where
  sessionMissing : Bool
  archivesDirMissing : Bool
  mkdirFails : Bool
  hourlyOpenFails : Bool
  hourlyCloseFails : Bool
  dailyOpenFails : Bool
  dailyCloseFails : Bool
deriving DecidableEq

def noFaults : Faults := ⟨false, false, false, false, false, false, false⟩

/-- The two archive files a run touches: the hourly zip at
directories::now and the daily zip at directories::today. -/
structure DiskState where
  hourlyFile : Option Zip
  dailyFile : Option Daily
deriving DecidableEq

def emptyDisk : DiskState := ⟨none, none⟩

structure Outcome where
  exitCode : Nat
  disk : DiskState
deriving DecidableEq

/-- The duplicate check zip_file_add performs against the entries already
present in the daily archive (line 225). -/
def dailyHasName (d : Daily) (h : String) : Bool :=
  d.any (fun p => decide (p.fst = h))

/-- One run of main (lines 27-237).  Control flow in source order:
exit 1 when the session is missing (line 58), when creating the archives
directory fails (line 100), when opening the hourly zip fails (line 130),
when an add into the hourly zip fails (lines 189, 202); zip_close of the
hourly zip (line 212) commits it to disk but its result is not inspected;
exit 1 when opening the daily zip fails (line 221) or when adding the
nested entry fails on a duplicate name (line 229, abandoning the open
archive so the daily file is unchanged); zip_close of the daily zip
(line 235) commits the appended entry, reading the hourly file from disk
at that moment, and its result is again not inspected; then exit 0. -/
def mainRun (f : Faults) (d0 : DiskState) (hourName : String)
    (tree : List Entry) : Outcome :=
  if f.sessionMissing then ⟨1, d0⟩
  else if f.archivesDirMissing && f.mkdirFails then ⟨1, d0⟩
  else if f.hourlyOpenFails then ⟨1, d0⟩
  else
    match buildHourly tree with
    | .error _ => ⟨1, d0⟩
    | .ok hz =>
      let hourly1 : Option Zip :=
        if f.hourlyCloseFails then d0.hourlyFile else some hz
      if f.dailyOpenFails then ⟨1, ⟨hourly1, d0.dailyFile⟩⟩
      else
        let dz : Daily := d0.dailyFile.getD []
        if dailyHasName dz hourName then ⟨1, ⟨hourly1, d0.dailyFile⟩⟩
        else
          match hourly1 with
          | none => ⟨0, ⟨none, d0.dailyFile⟩⟩
          | some hbytes =>
            if f.dailyCloseFails then ⟨0, ⟨hourly1, d0.dailyFile⟩⟩
            else ⟨0, ⟨hourly1, some (dz ++ [(hourName, hbytes)])⟩⟩

/-- A sequence of runs against the same archives directory: each run
reads the disk the previous run left behind. -/
def runAll (f : Faults) : DiskState → List (String × List Entry) → DiskState
  | d, [] => d
  | d, (h, t) :: rest => runAll f (mainRun f d h t).disk rest

/-- The zip a successful hourly build produces (defaulting to empty so
that it can be written without a success proof in hand). -/
def hourlyOr (t : List Entry) : Zip :=
  ((buildHourly t).toOption).getD []

/-- The walk of the scenario tree in section 8 of the spec: the sessions
directory holds archives (empty), fc2t with one file, a loose top-level
file, and constellation4 with two populated subdirectories. -/
def specTree : List Entry :=
  [⟨["archives"], .dir, []⟩,
   ⟨["fc2t"], .dir, []⟩,
   ⟨["fc2t", "stuff.txt"], .file, [0]⟩,
   ⟨["loose.txt"], .file, [1]⟩,
   ⟨["constellation4"], .dir, []⟩,
   ⟨["constellation4", "scripts"], .dir, []⟩,
   ⟨["constellation4", "scripts", "a.lua"], .file, [2]⟩,
   ⟨["constellation4", "logs"], .dir, []⟩,
   ⟨["constellation4", "logs", "b.log"], .file, [3]⟩]

/-- What the loop actually produces on the scenario tree. -/
def specZip : Zip :=
  [ZEntry.dir ["constellation4", "scripts"],
   ZEntry.file ["constellation4", "scripts", "a.lua"] [2],
   ZEntry.dir ["constellation4", "logs"],
   ZEntry.file ["constellation4", "logs", "b.log"] [3]]

/-- A walk containing a plain file whose basename is the blacklisted name
fc2t, nested two levels deep. -/
def c9Tree : List Entry :=
  [⟨["universe4"], .dir, []⟩,
   ⟨["universe4", "core"], .dir, []⟩,
   ⟨["universe4", "core", "fc2t"], .file, [7]⟩,
   ⟨["universe4", "core", "keep.txt"], .file, [8]⟩]

/-- What the loop produces on c9Tree: the deep file named fc2t is gone. -/
def c9Zip : Zip :=
  [ZEntry.dir ["universe4", "core"],
   ZEntry.file ["universe4", "core", "keep.txt"] [8]]

/-- Faults where only the hourly zip_close (line 212) fails. -/
def hourlyCloseFault : Faults := ⟨false, false, false, false, true, false, false⟩

/-- Faults where only the daily zip_close (line 235) fails. -/
def dailyCloseFault : Faults := ⟨false, false, false, false, false, false, true⟩

/-- Scanning the reversed segment list finds a blacklisted segment exactly
when one of the segments is in the blacklist. -/
theorem segBlacklistedRev_eq_true_iff (l : List String) :
    segBlacklistedRev l = true ↔ ∃ s ∈ l, s ∈ blacklist := by
  induction l with
  | nil => simp [segBlacklistedRev]
  | cons s rest ih => simp [segBlacklistedRev, ih, List.contains, List.elem_iff]

/-- is_blacklisted holds exactly when some segment of the path is in the
blacklist. -/
theorem is_blacklisted_eq_true_iff (p : List String) :
    is_blacklisted p = true ↔ ∃ s ∈ p, s ∈ blacklist := by
  simp [is_blacklisted, segBlacklistedRev_eq_true_iff]

theorem included_eq_true_iff (e : Entry) :
    included e = true ↔ is_blacklisted e.path = false ∧ e.path.length ≠ 1 := by
  simp [included]

theorem zipHasKey_eq_true_iff (z : Zip) (k : List String × Bool) :
    zipHasKey z k = true ↔ ∃ e ∈ z, zipKey e = k := by
  simp [zipHasKey]

theorem entryKey_fst (e : Entry) : (entryKey e).fst = e.path := by
  cases h : e.kind <;> simp [entryKey, toZEntry, zipKey, h]

/-- A successful single add appends exactly the mirrored entry. -/
theorem addOne_ok : ∀ {z : Zip} {e : Entry} {z2 : Zip},
    addOne z e = Except.ok z2 → z2 = z ++ [toZEntry e] := by
  intro z e z2 h
  cases e with
  | mk p k c =>
    cases k
    · simp only [addOne] at h
      split at h
      · rename_i z3 heq
        injection h with h2
        subst h2
        simp only [zip_dir_add] at heq
        split at heq
        · exact Option.noConfusion heq
        · injection heq with h3
          subst h3
          simp [toZEntry]
      · exact Except.noConfusion h
    · simp only [addOne] at h
      split at h
      · rename_i z3 heq
        injection h with h2
        subst h2
        simp only [zip_file_add] at heq
        split at heq
        · exact Option.noConfusion heq
        · injection heq with h3
          subst h3
          simp [toZEntry]
      · exact Except.noConfusion h

/-- When no entry of the same name is present, the add succeeds and
appends the mirrored entry. -/
theorem addOne_of_not_hasKey {z : Zip} {e : Entry}
    (h : zipHasKey z (entryKey e) = false) :
    addOne z e = Except.ok (z ++ [toZEntry e]) := by
  cases e with
  | mk p k c =>
    cases k
    · have h2 : zipHasKey z (p, true) = false := by
        simpa [entryKey, toZEntry, zipKey] using h
      simp [addOne, zip_dir_add, h2, toZEntry]
    · have h2 : zipHasKey z (p, false) = false := by
        simpa [entryKey, toZEntry, zipKey] using h
      simp [addOne, zip_file_add, h2, toZEntry]

/-- Every entry of a successfully built archive either was already there
or is the mirror of some walked entry that survived both filters. -/
theorem addEntries_ok_mem :
    ∀ (tree : List Entry) (z s : Zip), addEntries z tree = Except.ok s →
      ∀ e ∈ s, e ∈ z ∨ ∃ t ∈ tree, included t = true ∧ e = toZEntry t := by
  intro tree
  induction tree with
  | nil =>
    intro z s hok e he
    rw [addEntries] at hok
    cases hok
    exact Or.inl he
  | cons t rest ih =>
    intro z s hok e he
    rw [addEntries] at hok
    by_cases hbl : is_blacklisted t.path = true
    · rw [if_pos hbl] at hok
      rcases ih z s hok e he with h | ⟨u, hu, hiu, heq⟩
      · exact Or.inl h
      · exact Or.inr ⟨u, List.mem_cons_of_mem _ hu, hiu, heq⟩
    · rw [if_neg hbl] at hok
      by_cases hlen : (t.path.length == 1) = true
      · rw [if_pos hlen] at hok
        rcases ih z s hok e he with h | ⟨u, hu, hiu, heq⟩
        · exact Or.inl h
        · exact Or.inr ⟨u, List.mem_cons_of_mem _ hu, hiu, heq⟩
      · rw [if_neg hlen] at hok
        have hinc : included t = true := by
          refine (included_eq_true_iff t).mpr ⟨?_, ?_⟩
          · simpa using hbl
          · simpa using hlen
        split at hok
        · rename_i z2 heq
          rcases ih z2 s hok e he with h | ⟨u, hu, hiu, heq2⟩
          · rw [addOne_ok heq] at h
            rcases List.mem_append.mp h with h2 | h2
            · exact Or.inl h2
            · exact Or.inr ⟨t, List.mem_cons_self t rest, hinc,
                by simpa using h2⟩
          · exact Or.inr ⟨u, List.mem_cons_of_mem _ hu, hiu, heq2⟩
        · exact Except.noConfusion hok

/-- When the entries surviving the filters have pairwise distinct names
and none of them collides with the archive so far, the whole loop succeeds
and appends the mirrored entries in walk order. -/
theorem addEntries_complete :
    ∀ (tree : List Entry) (z : Zip),
      ((tree.filter included).map entryKey).Nodup →
      (∀ t ∈ tree, included t = true → ∀ ze ∈ z, zipKey ze ≠ entryKey t) →
      addEntries z tree = Except.ok (z ++ (tree.filter included).map toZEntry) := by
  intro tree
  induction tree with
  | nil => intro z _ _; simp [addEntries]
  | cons t rest ih =>
    intro z hnd hdisj
    rw [addEntries]
    by_cases hinc : included t = true
    · have hbl : is_blacklisted t.path = false := ((included_eq_true_iff t).mp hinc).1
      have hlen : t.path.length ≠ 1 := ((included_eq_true_iff t).mp hinc).2
      rw [if_neg (by simp [hbl]), if_neg (by simpa using hlen)]
      have hfil : (t :: rest).filter included = t :: rest.filter included :=
        List.filter_cons_of_pos hinc
      rw [hfil] at hnd
      simp only [List.map_cons, List.nodup_cons] at hnd
      have hkey : zipHasKey z (entryKey t) = false := by
        rw [Bool.eq_false_iff]
        intro hk
        obtain ⟨ze, hze, hkeq⟩ := (zipHasKey_eq_true_iff z (entryKey t)).mp hk
        exact hdisj t (List.mem_cons_self t rest) hinc ze hze hkeq
      rw [addOne_of_not_hasKey hkey]
      have step := ih (z ++ [toZEntry t]) hnd.2 ?_
      · show addEntries (z ++ [toZEntry t]) rest =
          Except.ok (z ++ List.map toZEntry (List.filter included (t :: rest)))
        rw [step, hfil]
        simp
      · intro u hu hiu ze hze
        rcases List.mem_append.mp hze with h2 | h2
        · exact hdisj u (List.mem_cons_of_mem _ hu) hiu ze h2
        · have hze2 : ze = toZEntry t := by simpa using h2
          subst hze2
          intro hcontra
          apply hnd.1
          have hmem : u ∈ rest.filter included := List.mem_filter.mpr ⟨hu, hiu⟩
          have : entryKey u ∈ (rest.filter included).map entryKey :=
            List.mem_map.mpr ⟨u, hmem, rfl⟩
          rw [show entryKey t = entryKey u from hcontra] at *
          exact this
    · have hfil : (t :: rest).filter included = rest.filter included :=
        List.filter_cons_of_neg (by simpa using hinc)
      rw [hfil] at hnd ⊢
      have hrest := ih z hnd
        (fun u hu hiu ze hze => hdisj u (List.mem_cons_of_mem _ hu) hiu ze hze)
      by_cases hbl : is_blacklisted t.path = true
      · rw [if_pos hbl]
        exact hrest
      · rw [if_neg hbl]
        have hlen : (t.path.length == 1) = true := by
          cases h : (t.path.length == 1) with
          | false =>
            exact absurd ((included_eq_true_iff t).mpr
              ⟨by simpa using hbl, by simpa using h⟩) hinc
          | true => rfl
        rw [if_pos hlen]
        exact hrest

/-- A fault-free run whose hour name is not yet in the daily archive:
exit 0, the hourly file holds the freshly built zip, and the daily archive
gains exactly one nested entry carrying that zip. -/
theorem mainRun_success (d0 : DiskState) (h : String) (tree : List Entry)
    (z : Zip) (hok : buildHourly tree = Except.ok z)
    (hfresh : dailyHasName (d0.dailyFile.getD []) h = false) :
    mainRun noFaults d0 h tree =
      ⟨0, ⟨some z, some ((d0.dailyFile.getD []) ++ [(h, z)])⟩⟩ := by
  simp [mainRun, noFaults, hok, hfresh]

/-- A fault-free run always leaves the freshly built zip in the hourly
file, whatever the daily archive already contains. -/
theorem mainRun_hourlyFile (d0 : DiskState) (h : String) (tree : List Entry)
    (z : Zip) (hok : buildHourly tree = Except.ok z) :
    (mainRun noFaults d0 h tree).disk.hourlyFile = some z := by
  simp [mainRun, noFaults, hok]
  split <;> simp

theorem dailyHasName_append (d1 d2 : Daily) (h : String) :
    dailyHasName (d1 ++ d2) h = (dailyHasName d1 h || dailyHasName d2 h) := by
  simp [dailyHasName, List.any_append]

/-- Fault-free runs over pairwise distinct, fresh hour names starting from
an existing daily archive append one nested entry per run and keep the
prior entries intact. -/
theorem runAll_append :
    ∀ (runs : List (String × List Entry)) (dz : Daily) (hf : Option Zip),
      (runs.map Prod.fst).Nodup →
      (∀ p ∈ runs, dailyHasName dz p.fst = false) →
      (∀ p ∈ runs, ∃ z, buildHourly p.snd = Except.ok z) →
      (runAll noFaults ⟨hf, some dz⟩ runs).dailyFile =
        some (dz ++ runs.map (fun p => (p.fst, hourlyOr p.snd))) := by
  intro runs
  induction runs with
  | nil => intro dz hf _ _ _; simp [runAll]
  | cons p rest ih =>
    obtain ⟨h, t⟩ := p
    intro dz hf hnd hfresh hoks
    obtain ⟨z, hz⟩ := hoks (h, t) (List.mem_cons_self _ _)
    simp only [List.map_cons, List.nodup_cons] at hnd
    rw [runAll]
    have hstep := mainRun_success ⟨hf, some dz⟩ h t z hz
      (by simpa using hfresh (h, t) (List.mem_cons_self _ _))
    rw [hstep]
    have hrest := ih (dz ++ [(h, z)]) (some z) hnd.2 ?_ ?_
    · show (runAll noFaults ⟨some z, some (dz ++ [(h, z)])⟩ rest).dailyFile = _
      rw [hrest]
      simp [hourlyOr, hz, Except.toOption]
    · intro q hq
      rw [dailyHasName_append]
      have h1 : dailyHasName dz q.fst = false := hfresh q (List.mem_cons_of_mem _ hq)
      have h2 : dailyHasName [(h, z)] q.fst = false := by
        have : h ≠ q.fst := by
          intro hcontra
          exact hnd.1 (hcontra ▸ List.mem_map.mpr ⟨q, hq, rfl⟩)
        simp [dailyHasName, this]
      rw [h1, h2]
      rfl
    · exact fun q hq => hoks q (List.mem_cons_of_mem _ hq)

/-- Claim C1: after a successful run, the daily archive contains an entry
named with the hour string, which is also the file name of the hourly
snapshot, and the content of that entry equals the bytes of the just
built hourly snapshot file as read back from disk: the run appends
exactly (h, z) to the daily archive while the hourly file on disk holds
exactly z. -/
theorem C1_daily_entry_is_hourly_bytes (d0 : DiskState) (h : String)
    (tree : List Entry) (z : Zip) (hok : buildHourly tree = Except.ok z)
    (hfresh : dailyHasName (d0.dailyFile.getD []) h = false) :
    (mainRun noFaults d0 h tree).exitCode = 0 ∧
    (mainRun noFaults d0 h tree).disk.hourlyFile = some z ∧
    (mainRun noFaults d0 h tree).disk.dailyFile =
      some ((d0.dailyFile.getD []) ++ [(h, z)]) := by
  rw [mainRun_success d0 h tree z hok hfresh]
  exact ⟨rfl, rfl, rfl⟩

theorem C1_witness :
    (mainRun noFaults emptyDisk "13.zip" specTree).exitCode = 0 ∧
    (mainRun noFaults emptyDisk "13.zip" specTree).disk.hourlyFile =
      some specZip ∧
    (mainRun noFaults emptyDisk "13.zip" specTree).disk.dailyFile =
      some ((emptyDisk.dailyFile.getD []) ++ [("13.zip", specZip)]) :=
  C1_daily_entry_is_hourly_bytes emptyDisk "13.zip" specTree specZip
    (by rfl) (by rfl)

/-- Claim C2 refutation: on the scenario tree of section 8 of the spec,
constellation4 is a direct subdirectory of the source root, it is not
blacklisted, the hourly build succeeds, and yet the archive holds no
directory entry for constellation4 itself: line 171 skips every direct
child of the sessions directory, directories included, so the claim that
the top-level rule applies only to files is false. -/
theorem C2_counterexample :
    buildHourly specTree = Except.ok specZip ∧
    (⟨["constellation4"], EntryKind.dir, []⟩ : Entry) ∈ specTree ∧
    is_blacklisted ["constellation4"] = false ∧
    ZEntry.dir ["constellation4"] ∉ specZip :=
  ⟨by rfl, by decide, by decide, by decide⟩

/-- Claim C2 as amended: the top-level exclusion of line 171 applies to
every direct child of the source root regardless of kind, so every entry
of a successfully built hourly archive sits at depth at least two; in
particular a top-level subdirectory never gets a directory entry of its
own, only its contents are archived. -/
theorem C2_amended_top_level_rule (tree : List Entry) (s : Zip)
    (hok : buildHourly tree = Except.ok s)
    (hne : ∀ e ∈ tree, e.path ≠ []) :
    ∀ ze ∈ s, 2 ≤ (zipKey ze).fst.length := by
  intro ze hze
  rcases addEntries_ok_mem tree [] s hok ze hze with hmem | ⟨t, ht, hinc, rfl⟩
  · simp at hmem
  · rw [show (zipKey (toZEntry t)).fst = t.path from entryKey_fst t]
    have hlen := ((included_eq_true_iff t).mp hinc).2
    have hnz : t.path.length ≠ 0 := by simpa using hne t ht
    omega

theorem C2_amended_witness :
    2 ≤ (zipKey (ZEntry.dir ["constellation4", "scripts"])).fst.length :=
  C2_amended_top_level_rule specTree specZip (by rfl) (by decide)
    (ZEntry.dir ["constellation4", "scripts"]) (by decide)

/-- Claim C3: the code does exit 1 when the session is missing, when
creating the archives directory fails, when opening the hourly or daily
zip fails; but the return values of zip_close on lines 212 and 235 are
never inspected, so a failure while finalizing the hourly or daily
archive still exits 0 — on the daily side even though nothing was
written to the daily archive at all.  This contradicts the claim and the
fail-fast policy of the spec. -/
theorem C3_close_failure_ignored :
    (mainRun hourlyCloseFault emptyDisk "13.zip" specTree).exitCode = 0 ∧
    (mainRun dailyCloseFault emptyDisk "13.zip" specTree).exitCode = 0 ∧
    (mainRun dailyCloseFault emptyDisk "13.zip" specTree).disk.dailyFile
      = none ∧
    (mainRun noFaults emptyDisk "13.zip" specTree).exitCode = 0 ∧
    (mainRun ⟨true, false, false, false, false, false, false⟩
      emptyDisk "13.zip" specTree).exitCode = 1 ∧
    (mainRun ⟨false, true, true, false, false, false, false⟩
      emptyDisk "13.zip" specTree).exitCode = 1 ∧
    (mainRun ⟨false, false, false, true, false, false, false⟩
      emptyDisk "13.zip" specTree).exitCode = 1 ∧
    (mainRun ⟨false, false, false, false, false, true, false⟩
      emptyDisk "13.zip" specTree).exitCode = 1 :=
  ⟨rfl, rfl, rfl, rfl, rfl, rfl, rfl, rfl⟩

/-- Claim C4: whatever the walked tree, no entry of a successfully built
hourly archive has a blacklisted name as any segment of its relative
path, because the filter of lines 144-158 scans every segment from leaf
toward root. -/
theorem C4_blacklist_exclusion (tree : List Entry) (s : Zip)
    (hok : buildHourly tree = Except.ok s) :
    ∀ ze ∈ s, ∀ seg ∈ (zipKey ze).fst, seg ∉ blacklist := by
  intro ze hze seg hseg hmem
  rcases addEntries_ok_mem tree [] s hok ze hze with h0 | ⟨t, _, hinc, rfl⟩
  · simp at h0
  · have hbl := ((included_eq_true_iff t).mp hinc).1
    rw [show (zipKey (toZEntry t)).fst = t.path from entryKey_fst t] at hseg
    have hcontra : is_blacklisted t.path = true :=
      (is_blacklisted_eq_true_iff t.path).mpr ⟨seg, hseg, hmem⟩
    rw [hbl] at hcontra
    exact Bool.noConfusion hcontra

theorem C4_witness : "constellation4" ∉ blacklist :=
  C4_blacklist_exclusion specTree specZip (by rfl)
    (ZEntry.dir ["constellation4", "scripts"]) (by decide)
    "constellation4" (by decide)

/-- Claim C5: a file sitting directly under the source root, that is one
whose relative path is a single segment, never appears as an entry of a
successfully built hourly archive: line 171 skips all direct children. -/
theorem C5_top_level_files_never_archived (tree : List Entry) (s : Zip)
    (hok : buildHourly tree = Except.ok s) (name : String) (c : List Nat) :
    ZEntry.file [name] c ∉ s := by
  intro hmem
  rcases addEntries_ok_mem tree [] s hok _ hmem with h0 | ⟨t, _, hinc, heq⟩
  · simp at h0
  · have hlen := ((included_eq_true_iff t).mp hinc).2
    cases hk : t.kind
    · simp [toZEntry, hk] at heq
    · simp [toZEntry, hk] at heq
      apply hlen
      rw [← heq.1]
      rfl

theorem C5_witness : ZEntry.file ["loose.txt"] [1] ∉ specZip :=
  C5_top_level_files_never_archived specTree specZip (by rfl) "loose.txt" [1]

/-- Claim C6: when the walk yields pairwise distinct names, the hourly
build succeeds and mirrors, in walk order with no sorting and no
deduplication, exactly the surviving entries; every file below an
included subdirectory, that is at depth at least two and not blacklisted,
is present as exactly one archive entry whose name is its relative path
and whose content is its bytes. -/
theorem C6_subtree_file_archived_once (tree : List Entry) (e : Entry)
    (hnd : (tree.map entryKey).Nodup) (hmem : e ∈ tree)
    (hfile : e.kind = EntryKind.file) (hdepth : 2 ≤ e.path.length)
    (hbl : is_blacklisted e.path = false) :
    buildHourly tree = Except.ok ((tree.filter included).map toZEntry) ∧
    ((tree.filter included).map toZEntry).count
      (ZEntry.file e.path e.content) = 1 := by
  have hnd2 : ((tree.filter included).map entryKey).Nodup :=
    List.Nodup.sublist ((List.filter_sublist tree).map entryKey) hnd
  have hbuild := addEntries_complete tree [] hnd2
    (fun t _ _ ze hze => absurd hze (List.not_mem_nil ze))
  have hinc : included e = true :=
    (included_eq_true_iff e).mpr ⟨hbl, by omega⟩
  have hz : toZEntry e = ZEntry.file e.path e.content := by
    simp [toZEntry, hfile]
  have hnodupz : ((tree.filter included).map toZEntry).Nodup := by
    refine List.Nodup.of_map zipKey ?_
    rw [List.map_map]
    exact hnd2
  have hmemz : ZEntry.file e.path e.content ∈
      (tree.filter included).map toZEntry := by
    rw [← hz]
    exact List.mem_map.mpr ⟨e, List.mem_filter.mpr ⟨hmem, hinc⟩, rfl⟩
  refine ⟨by simpa [buildHourly] using hbuild, ?_⟩
  exact List.count_eq_one_of_mem hnodupz hmemz

theorem C6_witness :
    buildHourly specTree = Except.ok ((specTree.filter included).map toZEntry) ∧
    ((specTree.filter included).map toZEntry).count
      (ZEntry.file ["constellation4", "scripts", "a.lua"] [2]) = 1 :=
  C6_subtree_file_archived_once specTree
    ⟨["constellation4", "scripts", "a.lua"], EntryKind.file, [2]⟩
    (by decide) (by decide) rfl (by decide) (by decide)

/-- Claim C7: the daily archive is opened without truncation, so a
sequence of fault-free runs over pairwise distinct hour names none of
which is already present appends exactly one nested entry per run, in
run order, leaving every entry written by an earlier run in place with
unchanged content. -/
theorem C7_daily_nondestructive (runs : List (String × List Entry))
    (d0 : DiskState) (hne : runs ≠ [])
    (hnd : (runs.map Prod.fst).Nodup)
    (hfresh : ∀ p ∈ runs, dailyHasName (d0.dailyFile.getD []) p.fst = false)
    (hoks : ∀ p ∈ runs, ∃ z, buildHourly p.snd = Except.ok z) :
    (runAll noFaults d0 runs).dailyFile =
      some ((d0.dailyFile.getD []) ++
        runs.map (fun p => (p.fst, hourlyOr p.snd))) := by
  cases runs with
  | nil => exact absurd rfl hne
  | cons p rest =>
    obtain ⟨h, t⟩ := p
    obtain ⟨z, hz⟩ := hoks (h, t) (List.mem_cons_self _ _)
    simp only [List.map_cons, List.nodup_cons] at hnd
    rw [runAll]
    rw [mainRun_success d0 h t z hz
      (by simpa using hfresh (h, t) (List.mem_cons_self _ _))]
    have hrest := runAll_append rest ((d0.dailyFile.getD []) ++ [(h, z)])
      (some z) hnd.2 ?_ ?_
    · show (runAll noFaults
        ⟨some z, some ((d0.dailyFile.getD []) ++ [(h, z)])⟩ rest).dailyFile = _
      rw [hrest]
      simp [hourlyOr, hz, Except.toOption]
    · intro q hq
      rw [dailyHasName_append]
      have h1 := hfresh q (List.mem_cons_of_mem _ hq)
      have h2 : dailyHasName [(h, z)] q.fst = false := by
        have hne2 : h ≠ q.fst := fun hc =>
          hnd.1 (hc ▸ List.mem_map.mpr ⟨q, hq, rfl⟩)
        simp [dailyHasName, hne2]
      rw [h1, h2]
      rfl
    · exact fun q hq => hoks q (List.mem_cons_of_mem _ hq)

theorem C7_witness :
    (runAll noFaults emptyDisk
      [("13.zip", specTree), ("14.zip", specTree)]).dailyFile =
    some ((emptyDisk.dailyFile.getD []) ++
      [("13.zip", specTree), ("14.zip", specTree)].map
        (fun p => (p.fst, hourlyOr p.snd))) :=
  C7_daily_nondestructive [("13.zip", specTree), ("14.zip", specTree)]
    emptyDisk (by decide) (by decide) (by decide)
    (by
      intro p hp
      rcases List.mem_cons.mp hp with h | h
      · exact ⟨specZip, by subst h; rfl⟩
      · rcases List.mem_cons.mp h with h2 | h2
        · exact ⟨specZip, by subst h2; rfl⟩
        · exact absurd h2 (List.not_mem_nil p))

/-- Claim C8: the hourly zip is opened with truncation on every run, so
two fault-free runs in the same hour bucket over an unchanged source
tree both leave exactly the same entry list in the hourly file; the
second run overwrites rather than accumulates. -/
theorem C8_idempotent_hourly_rebuild (d0 : DiskState) (h : String)
    (tree : List Entry) (z : Zip) (hok : buildHourly tree = Except.ok z) :
    (mainRun noFaults d0 h tree).disk.hourlyFile = some z ∧
    (mainRun noFaults
      (mainRun noFaults d0 h tree).disk h tree).disk.hourlyFile = some z :=
  ⟨mainRun_hourlyFile d0 h tree z hok,
   mainRun_hourlyFile _ h tree z hok⟩

theorem C8_witness :
    (mainRun noFaults emptyDisk "13.zip" specTree).disk.hourlyFile =
      some specZip ∧
    (mainRun noFaults
      (mainRun noFaults emptyDisk "13.zip" specTree).disk
      "13.zip" specTree).disk.hourlyFile = some specZip :=
  C8_idempotent_hourly_rebuild emptyDisk "13.zip" specTree specZip (by rfl)

/-- Claim C9: the blacklist filter matches the basename of every path
segment without asking whether the entry is a directory, so a plain file
whose own name is a blacklisted name, at any depth, is excluded from the
hourly archive as well. -/
theorem C9_blacklisted_file_name_excluded (tree : List Entry) (s : Zip)
    (hok : buildHourly tree = Except.ok s) (n : List String) (c : List Nat)
    (b : String) (hb : b ∈ blacklist) (hlast : n.getLast? = some b) :
    ZEntry.file n c ∉ s := by
  intro hmem
  rcases addEntries_ok_mem tree [] s hok _ hmem with h0 | ⟨t, _, hinc, heq⟩
  · simp at h0
  · have hbl := ((included_eq_true_iff t).mp hinc).1
    have hpath : t.path = n := by
      cases hk : t.kind
      · simp [toZEntry, hk] at heq
      · simp [toZEntry, hk] at heq
        exact heq.1.symm
    have hbmem : b ∈ n := List.mem_of_getLast?_eq_some hlast
    have hcontra : is_blacklisted t.path = true :=
      (is_blacklisted_eq_true_iff _).mpr ⟨b, by rw [hpath]; exact hbmem, hb⟩
    rw [hbl] at hcontra
    exact Bool.noConfusion hcontra

theorem C9_witness :
    ZEntry.file ["universe4", "core", "fc2t"] [7] ∉ c9Zip :=
  C9_blacklisted_file_name_excluded c9Tree c9Zip (by rfl)
    ["universe4", "core", "fc2t"] [7] "fc2t" (by decide) (by rfl)

/-- Claim C10: on a second fault-free run within the same hour bucket of
the same day, zip_file_add on line 225 is called without an overwrite
flag, the name collides with the entry the first run stored, the add
fails, the process exits 1, and the daily archive is left exactly as the
first run wrote it. -/
theorem C10_second_run_same_hour_fails (d0 : DiskState) (h : String)
    (t1 t2 : List Entry) (z1 z2 : Zip)
    (h1 : buildHourly t1 = Except.ok z1) (h2 : buildHourly t2 = Except.ok z2)
    (hfresh : dailyHasName (d0.dailyFile.getD []) h = false) :
    (mainRun noFaults (mainRun noFaults d0 h t1).disk h t2).exitCode = 1 ∧
    (mainRun noFaults (mainRun noFaults d0 h t1).disk h t2).disk.dailyFile =
      (mainRun noFaults d0 h t1).disk.dailyFile := by
  rw [mainRun_success d0 h t1 z1 h1 hfresh]
  have hdup : dailyHasName ((d0.dailyFile.getD []) ++ [(h, z1)]) h = true := by
    rw [dailyHasName_append]
    simp [dailyHasName]
  simp [mainRun, noFaults, h2, hdup]

theorem C10_witness :
    (mainRun noFaults
      (mainRun noFaults emptyDisk "13.zip" specTree).disk
      "13.zip" specTree).exitCode = 1 ∧
    (mainRun noFaults
      (mainRun noFaults emptyDisk "13.zip" specTree).disk
      "13.zip" specTree).disk.dailyFile =
      (mainRun noFaults emptyDisk "13.zip" specTree).disk.dailyFile :=
  C10_second_run_same_hour_fails emptyDisk "13.zip" specTree specTree
    specZip specZip (by rfl) (by rfl) (by rfl)
